import Mathlib

/-!
Verification of the FinBot expense-parsing and aggregation logic.

The definitions below are a shallow embedding of the pure core of
`src/FinBot.py`: the free-text message parser `parse_mensagem` and the
aggregation performed by the `/total` and `/categoria` command handlers.
Strings are modelled as `List Char` (Lean `String.data`), Python floats as
exact rationals `ℚ`, and Python exceptions as `Option`/`none`.
-/

namespace FinBot

/-- Python `str.lower()` restricted to the Latin-1 range that the code can
produce: ASCII `A`-`Z` and `À`-`Þ` (except `×`) map down by 32, everything
else is unchanged. -/
def pyLower (c : Char) : Char :=
  if 'A' ≤ c ∧ c ≤ 'Z' then Char.ofNat (c.toNat + 32)
  else if 0xC0 ≤ c.toNat ∧ c.toNat ≤ 0xDE ∧ c.toNat ≠ 0xD7 then Char.ofNat (c.toNat + 32)
  else c

/-- Lowercase an entire character list, as `mensagem.lower()` does. -/
def pyLowerL (l : List Char) : List Char := l.map pyLower

/-- One character of the regex class `[A-Za-zÀ-ÿ]` used to tokenize words. -/
def isWordChar (c : Char) : Bool :=
  decide (('A' ≤ c ∧ c ≤ 'Z') ∨ ('a' ≤ c ∧ c ≤ 'z') ∨ (0xC0 ≤ c.toNat ∧ c.toNat ≤ 0xFF))

/-- ASCII whitespace stripped by Python `str.strip()`. -/
def isPySpace (c : Char) : Bool :=
  decide (c = ' ' ∨ c = '\t' ∨ c = '\n' ∨ c = '\r' ∨ c.toNat = 11 ∨ c.toNat = 12)

/-- Python `str.strip()`: drop whitespace from both ends. -/
def pyStrip (l : List Char) : List Char :=
  ((l.dropWhile isPySpace).reverse.dropWhile isPySpace).reverse

/-- Numeric value of a digit string, as `int`/`float` read a run of digits. -/
def natOfDigits (l : List Char) : Nat :=
  l.foldl (fun a c => 10 * a + (c.toNat - 48)) 0

/-- One greedy match of the regex `\d+(?:[.,]\d+)?` starting at the head of
`s` (the head is assumed to be a digit): returns the matched token and the
remainder of the string after the match. -/
def splitNumTok (s : List Char) : List Char × List Char :=
  let ds := s.takeWhile Char.isDigit
  match s.dropWhile Char.isDigit with
  | c :: c2 :: t =>
    if (c == '.' || c == ',') && c2.isDigit then
      (ds ++ c :: (c2 :: t).takeWhile Char.isDigit, (c2 :: t).dropWhile Char.isDigit)
    else (ds, c :: c2 :: t)
  | r => (ds, r)

/-- First (leftmost) match of `\d+(?:[.,]\d+)?`, as in
`re.findall(r"\d+(?:[.,]\d+)?", mensagem)[0]`. -/
def findNumTok : List Char → Option (List Char)
  | [] => none
  | c :: t => if c.isDigit then some (splitNumTok (c :: t)).1 else findNumTok t

/-- Value of a matched numeric token, as `float(tok.replace(",", "."))`:
integer part plus, when a separator is present, fraction part. -/
def ratOfTok (tok : List Char) : ℚ :=
  let ip := tok.takeWhile Char.isDigit
  match tok.dropWhile Char.isDigit with
  | [] => (natOfDigits ip : ℚ)
  | _ :: fr => (natOfDigits ip : ℚ) + (natOfDigits fr : ℚ) / 10 ^ fr.length

/-- Amount extraction of `parse_mensagem` on a character list:
first numeric token's value, or 0 when there is none. -/
def valorOfL (l : List Char) : ℚ :=
  match findNumTok l with
  | some tok => ratOfTok tok
  | none => 0

/-- Amount extraction of `parse_mensagem` (lines 78-79 of FinBot.py). -/
def valorOf (m : String) : ℚ := valorOfL m.data

/-- The fixed ordered payment-method vocabulary of `parse_mensagem`. -/
def vocabFP : List String :=
  ["cartão", "cartao", "dinheiro", "pix", "transferência", "transferencia", "boleto"]

/-- Holds when, in `beginsWith p l`, `p` is an initial segment of `l`. -/
def beginsWith : List Char → List Char → Bool
  | [], _ => true
  | _ :: _, [] => false
  | p :: ps, c :: cs => p == c && beginsWith ps cs

/-- Python substring test `need in hay`. -/
def isSubstr (need : List Char) : List Char → Bool
  | [] => need.isEmpty
  | c :: t => beginsWith need (c :: t) || isSubstr need t

/-- The `for fp in [...]` loop of `parse_mensagem`: first vocabulary entry
(in vocabulary order) that is a substring of the lowercased message, the
empty string when none is. -/
def firstFP (low : List Char) : List String → String
  | [] => ""
  | fp :: rest => if isSubstr fp.data low then fp else firstFP low rest

/-- Payment-method extraction of `parse_mensagem` (lines 81-85). -/
def formaPagamentoOf (m : String) : String := firstFP (pyLowerL m.data) vocabFP

/-- Fuel-driven worker for `re.findall(r"[A-Za-zÀ-ÿ]+", mensagem)`. -/
def palavrasOfF : Nat → List Char → List (List Char)
  | _, [] => []
  | 0, _ => []
  | fuel + 1, c :: t =>
    if isWordChar c then
      ((c :: t).takeWhile isWordChar) :: palavrasOfF fuel ((c :: t).dropWhile isWordChar)
    else palavrasOfF fuel t

/-- The alphabetic words of the message, in order (line 87). -/
def palavrasOf (l : List Char) : List (List Char) := palavrasOfF l.length l

/-- The list comprehension of line 88: words whose lowercase form is NOT a
substring (Python `in`) of the lowercased payment-method token. -/
def filteredPalavras (m : String) : List (List Char) :=
  (palavrasOf m.data).filter fun p =>
    !(isSubstr (pyLowerL p) (pyLowerL (formaPagamentoOf m).data))

/-- Category extraction of `parse_mensagem` (lines 87-89). -/
def categoriaOf (m : String) : String :=
  match filteredPalavras m with
  | [] => "Geral"
  | p :: _ => String.mk p

/-- A calendar date, as produced by `datetime.date`. -/
structure Date where
  year : Nat
  month : Nat
  day : Nat
deriving DecidableEq, Repr

/-- Gregorian leap-year test used by `datetime`. -/
def isLeapYear (y : Nat) : Bool :=
  decide (y % 4 = 0 ∧ (y % 100 ≠ 0 ∨ y % 400 = 0))

/-- Number of days of month `m` in year `y`. -/
def diasNoMes (y m : Nat) : Nat :=
  if m = 2 then (if isLeapYear y then 29 else 28)
  else if m = 4 ∨ m = 6 ∨ m = 9 ∨ m = 11 then 30
  else 31

/-- Model of `datetime.strptime(tok, "%d/%m/%Y").date()`: succeeds exactly on valid
calendar dates (year 1-9999), raises (`none`) otherwise. -/
def strptimeDMY (d mo y : Nat) : Option Date :=
  if 1 ≤ y ∧ y ≤ 9999 ∧ 1 ≤ mo ∧ mo ≤ 12 ∧ 1 ≤ d ∧ d ≤ diasNoMes y mo then
    some ⟨y, mo, d⟩
  else none

/-- Digit value of a digit character. -/
def asDigit (c : Char) : Nat := c.toNat - 48

/-- Match of `\d{2}/\d{2}/\d{4}` anchored at the head of `l`, returning the
day, month and year numerals. -/
def matchDate (l : List Char) : Option (Nat × Nat × Nat) :=
  match l with
  | d1 :: d2 :: s1 :: m1 :: m2 :: s2 :: y1 :: y2 :: y3 :: y4 :: _ =>
    if d1.isDigit && d2.isDigit && (s1 == '/') && m1.isDigit && m2.isDigit &&
        (s2 == '/') && y1.isDigit && y2.isDigit && y3.isDigit && y4.isDigit then
      some (10 * asDigit d1 + asDigit d2,
            10 * asDigit m1 + asDigit m2,
            1000 * asDigit y1 + 100 * asDigit y2 + 10 * asDigit y3 + asDigit y4)
    else none
  | _ => none

/-- Model of `re.search(r"(\d{2}/\d{2}/\d{4})", mensagem)`: leftmost match. -/
def findDateTok : List Char → Option (Nat × Nat × Nat)
  | [] => none
  | c :: t =>
    match matchDate (c :: t) with
    | some r => some r
    | none => findDateTok t

/-- Date extraction of `parse_mensagem` (lines 91-95): parse the first
`DD/MM/YYYY` token via strptime (raising on an invalid date), falling back
to the calendar date of the message timestamp. -/
def dataOf (m : String) (fallback : Date) : Option Date :=
  match findDateTok m.data with
  | some (d, mo, y) => strptimeDMY d mo y
  | none => some fallback

/-- Fuel-driven worker for `re.sub(r"\d+(?:[.,]\d+)?", "", mensagem)`:
delete every (non-overlapping, leftmost, greedy) numeric token. -/
def stripNumsF : Nat → List Char → List Char
  | _, [] => []
  | 0, l => l
  | fuel + 1, c :: t =>
    if c.isDigit then stripNumsF fuel (splitNumTok (c :: t)).2
    else c :: stripNumsF fuel t

/-- Delete every numeric token from the message (line 97). -/
def stripNums (l : List Char) : List Char := stripNumsF l.length l

/-- Fuel-driven worker for `re.sub(pat, "", s, flags=re.IGNORECASE)` with a
literal pattern: delete every non-overlapping, leftmost, case-insensitive
occurrence of `pat`.  An empty pattern deletes nothing, as in `re.sub`. -/
def removeAllCIF (pat : List Char) : Nat → List Char → List Char
  | _, [] => []
  | 0, l => l
  | fuel + 1, c :: t =>
    if pat.length != 0 && beginsWith (pyLowerL pat) (pyLowerL (c :: t)) then
      removeAllCIF pat fuel (t.drop (pat.length - 1))
    else c :: removeAllCIF pat fuel t

/-- Delete every case-insensitive occurrence of `pat` (lines 98-99). -/
def removeAllCI (pat l : List Char) : List Char := removeAllCIF pat l.length l

/-- Notes computation of `parse_mensagem` (lines 97-100): remove all numeric
tokens, then all occurrences of the category word, then all occurrences of
the payment-method word, and strip whitespace. -/
def observacoesOf (m : String) : String :=
  String.mk (pyStrip
    (removeAllCI (formaPagamentoOf m).data
      (removeAllCI (categoriaOf m).data (stripNums m.data))))

/-- The structured record returned by `parse_mensagem`. -/
structure Registro where
  valor : ℚ
  categoria : String
  data : Date
  formaPagamento : String
  observacoes : String
deriving DecidableEq, Repr

/-- Model of `parse_mensagem(mensagem, data_mensagem)` (lines 76-102).  `none` models
the `ValueError` escaping from `datetime.strptime` on an invalid date
token; every other path returns a record. -/
def parse_mensagem (mensagem : String) (dataMensagem : Date) : Option Registro :=
  match dataOf mensagem dataMensagem with
  | none => none
  | some dt =>
    some ⟨valorOf mensagem, categoriaOf mensagem, dt,
          formaPagamentoOf mensagem, observacoesOf mensagem⟩

/-- A stored spreadsheet row as the aggregation commands see it:
the `Valor` and `Categoria` columns. -/
structure Linha where
  valor : String
  categoria : String
deriving DecidableEq, Repr

/-- Exponent suffix of a Python float literal: empty, or `e`/`E`, optional
sign, digits.  Applied to the mantissa already parsed. -/
def expTail (base : ℚ) (l : List Char) : Option ℚ :=
  match l with
  | [] => some base
  | c :: t =>
    if c == 'e' || c == 'E' then
      let st : Bool × List Char :=
        match t with
        | '+' :: t2 => (false, t2)
        | '-' :: t2 => (true, t2)
        | _ => (false, t)
      let ed := st.2.takeWhile Char.isDigit
      if ed ≠ [] ∧ st.2.dropWhile Char.isDigit = [] then
        some (if st.1 then base / 10 ^ natOfDigits ed else base * 10 ^ natOfDigits ed)
      else none
    else none

/-- Python `float(s)` on decimal literals: strip whitespace, optional sign,
digits with an optional fractional part and optional exponent; `none`
models the `ValueError` on anything else. -/
def pyFloat (s : String) : Option ℚ :=
  let l := pyStrip s.data
  let sl : Bool × List Char :=
    match l with
    | '+' :: t => (false, t)
    | '-' :: t => (true, t)
    | _ => (false, l)
  let ip := sl.2.takeWhile Char.isDigit
  let res : Option ℚ :=
    match sl.2.dropWhile Char.isDigit with
    | '.' :: r2 =>
      let fp := r2.takeWhile Char.isDigit
      if ip = [] ∧ fp = [] then none
      else expTail ((natOfDigits ip : ℚ) + (natOfDigits fp : ℚ) / 10 ^ fp.length)
             (r2.dropWhile Char.isDigit)
    | r1 => if ip = [] then none else expTail (natOfDigits ip : ℚ) r1
  match res with
  | none => none
  | some v => some (if sl.1 then -v else v)

/-- Model of `sum(float(d["Valor"]) for d in dados)` in `cmd_total` (line 111): the
generator raises on the first unparseable amount, aborting the sum. -/
def totalGastos (rows : List Linha) : Option ℚ :=
  rows.foldlM (fun acc r => (pyFloat r.valor).map (fun v => acc + v)) 0

/-- Model of `categorias[cat] = categorias.get(cat, 0) + valor`: update an existing
key in place, or append a new key at the end (Python dict insertion
order). -/
def addCat : List (String × ℚ) → String → ℚ → List (String × ℚ)
  | [], cat, v => [(cat, v)]
  | (c, x) :: rest, cat, v =>
    if c = cat then (c, x + v) :: rest else (c, x) :: addCat rest cat v

/-- The grouping loop of `cmd_categoria` (lines 123-127): per-category sums
in first-seen order; raises (aborts) on the first unparseable amount. -/
def categoriasTotais (rows : List Linha) : Option (List (String × ℚ)) :=
  rows.foldlM (fun acc r => (pyFloat r.valor).map (fun v => addCat acc r.categoria v)) []

/-- Modelled from the spec: an aggregation that SKIPS rows whose stored
amount cannot be parsed back into a number and sums the rest (the claimed
defensive behaviour, which the code does not implement). -/
def totalGastosSpec (rows : List Linha) : ℚ :=
  rows.foldl (fun acc r => match pyFloat r.valor with | some v => acc + v | none => acc) 0

/-- Decimal digit string of a natural number, most significant first. -/
def natToDigits (n : Nat) : List Char :=
  if _h : n < 10 then [Nat.digitChar n]
  else natToDigits (n / 10) ++ [Nat.digitChar (n % 10)]
termination_by n
decreasing_by exact Nat.div_lt_self (by omega) (by omega)

/-- Value `10 ^ (number of decimal digits of n)`, following the recursion of
`natToDigits`. -/
def tenPow (n : Nat) : Nat :=
  if _h : n < 10 then 10
  else tenPow (n / 10) * 10
termination_by n
decreasing_by exact Nat.div_lt_self (by omega) (by omega)

/-- Two-decimal formatting of an amount of `cents / 100` currency units, as
produced when a record is stored (`round(valor, 2)` in `salvar_dados` and
the `.2f` confirmation format). -/
def formatValor2 (cents : Nat) : String :=
  String.mk (natToDigits (cents / 100) ++
    '.' :: [Nat.digitChar (cents % 100 / 10), Nat.digitChar (cents % 100 % 10)])

/-- Modelled from the spec: the payment-method synonym whose occurrence
starts earliest in a left-to-right scan of the lowercased message (the
claimed "scan order" tie-break, which the code does not implement). -/
def scanFirstFPAux : List Char → String
  | [] => ""
  | c :: t =>
    match vocabFP.find? (fun fp => beginsWith fp.data (c :: t)) with
    | some fp => fp
    | none => scanFirstFPAux t

/-- Modelled from the spec: scan-order-first payment-method synonym. -/
def scanFirstFP (m : String) : String := scanFirstFPAux (pyLowerL m.data)

/-- Modelled from the spec: category extraction that removes only words
EQUAL (case-insensitively) to the payment-method token, keeping words that
are merely substrings of it. -/
def categoriaSpec (m : String) : String :=
  match (palavrasOf m.data).filter
      (fun p => !(pyLowerL p == pyLowerL (formaPagamentoOf m).data)) with
  | [] => "Geral"
  | p :: _ => String.mk p

/-- Delete only the FIRST case-insensitive occurrence of `pat`. -/
def removeFirstCI (pat : List Char) : List Char → List Char
  | [] => []
  | c :: t =>
    if pat.length != 0 && beginsWith (pyLowerL pat) (pyLowerL (c :: t)) then
      t.drop (pat.length - 1)
    else c :: removeFirstCI pat t

/-- Modelled from the spec: notes where only the first occurrence of the
category word and of the payment-method word is removed. -/
def observacoesSpec (m : String) : String :=
  String.mk (pyStrip
    (removeFirstCI (formaPagamentoOf m).data
      (removeFirstCI (categoriaOf m).data (stripNums m.data))))

/-- Boundary condition after an integer numeric token: the regex
`\d+(?:[.,]\d+)?` cannot extend the match into `l`. -/
def numTokStop (l : List Char) : Bool :=
  match l with
  | [] => true
  | [c] => !c.isDigit
  | c1 :: c2 :: _ => !c1.isDigit && !((c1 == '.' || c1 == ',') && c2.isDigit)

/-- Boundary condition after the fractional digits of a numeric token:
the digit run cannot extend into `l`. -/
def fracStop (l : List Char) : Bool :=
  match l with
  | [] => true
  | c :: _ => !c.isDigit

/-! ## Helper lemmas about the scanners -/

theorem takeWhile_append_all {p : Char → Bool} {ds : List Char} (l : List Char)
    (h : ∀ c ∈ ds, p c = true) :
    (ds ++ l).takeWhile p = ds ++ l.takeWhile p := by
  induction ds with
  | nil => simp
  | cons a t ih =>
    have ha : p a = true := h a (by simp)
    simp only [List.cons_append, List.takeWhile_cons_of_pos ha, List.cons.injEq, true_and]
    exact ih fun c hc => h c (by simp [hc])

theorem dropWhile_append_all {p : Char → Bool} {ds : List Char} (l : List Char)
    (h : ∀ c ∈ ds, p c = true) :
    (ds ++ l).dropWhile p = l.dropWhile p := by
  induction ds with
  | nil => simp
  | cons a t ih =>
    have ha : p a = true := h a (by simp)
    simp only [List.cons_append, List.dropWhile_cons_of_pos ha]
    exact ih fun c hc => h c (by simp [hc])

theorem takeWhile_all {p : Char → Bool} {ds : List Char} (h : ∀ c ∈ ds, p c = true) :
    ds.takeWhile p = ds := by
  have h2 := @takeWhile_append_all p ds [] h
  simpa using h2

theorem dropWhile_all {p : Char → Bool} {ds : List Char} (h : ∀ c ∈ ds, p c = true) :
    ds.dropWhile p = [] := by
  have h2 := @dropWhile_append_all p ds [] h
  simpa using h2

theorem numTokStop_fracStop {l : List Char} (h : numTokStop l = true) : fracStop l = true := by
  cases l with
  | nil => rfl
  | cons c t =>
    cases t with
    | nil => simpa [numTokStop, fracStop] using h
    | cons c2 t2 =>
      simp only [numTokStop, Bool.and_eq_true] at h
      simpa [fracStop] using h.1

theorem takeWhile_digit_of_fracStop {l : List Char} (h : fracStop l = true) :
    l.takeWhile Char.isDigit = [] := by
  cases l with
  | nil => rfl
  | cons c t =>
    simp only [fracStop, Bool.not_eq_true'] at h
    simp [List.takeWhile_cons_of_neg, h]

theorem dropWhile_digit_of_fracStop {l : List Char} (h : fracStop l = true) :
    l.dropWhile Char.isDigit = l := by
  cases l with
  | nil => rfl
  | cons c t =>
    simp only [fracStop, Bool.not_eq_true'] at h
    simp [List.dropWhile_cons_of_neg, h]

theorem findNumTok_append {pre : List Char} (l : List Char)
    (h : ∀ c ∈ pre, c.isDigit = false) :
    findNumTok (pre ++ l) = findNumTok l := by
  induction pre with
  | nil => rfl
  | cons a t ih =>
    have ha : a.isDigit = false := h a (by simp)
    simp only [List.cons_append, findNumTok, ha, Bool.false_eq_true, if_false]
    exact ih fun c hc => h c (by simp [hc])

theorem findNumTok_none {l : List Char} (h : ∀ c ∈ l, c.isDigit = false) :
    findNumTok l = none := by
  induction l with
  | nil => rfl
  | cons a t ih =>
    have ha : a.isDigit = false := h a (by simp)
    simp only [findNumTok, ha, Bool.false_eq_true, if_false]
    exact ih fun c hc => h c (by simp [hc])

theorem ratOfTok_int {ds : List Char} (hds : ∀ c ∈ ds, c.isDigit = true) :
    ratOfTok ds = (natOfDigits ds : ℚ) := by
  rw [ratOfTok]
  rw [dropWhile_all hds, takeWhile_all hds]

theorem ratOfTok_dec {ds fs : List Char} {sep : Char}
    (hds : ∀ c ∈ ds, c.isDigit = true) (hsep : sep.isDigit = false)
    (_hfs : ∀ c ∈ fs, c.isDigit = true) :
    ratOfTok (ds ++ sep :: fs) =
      (natOfDigits ds : ℚ) + (natOfDigits fs : ℚ) / 10 ^ fs.length := by
  rw [ratOfTok]
  rw [takeWhile_append_all _ hds, dropWhile_append_all _ hds,
    List.takeWhile_cons_of_neg (by simp [hsep]), List.dropWhile_cons_of_neg (by simp [hsep])]
  simp

theorem splitNumTok_int {ds post : List Char}
    (hds : ∀ c ∈ ds, c.isDigit = true) (hpost : numTokStop post = true) :
    splitNumTok (ds ++ post) = (ds, post) := by
  have hfrac := numTokStop_fracStop hpost
  rw [splitNumTok]
  rw [takeWhile_append_all _ hds, dropWhile_append_all _ hds,
    takeWhile_digit_of_fracStop hfrac, dropWhile_digit_of_fracStop hfrac,
    List.append_nil]
  cases post with
  | nil => rfl
  | cons c1 t =>
    cases t with
    | nil => rfl
    | cons c2 t2 =>
      simp only [numTokStop, Bool.and_eq_true, Bool.not_eq_true'] at hpost
      simp [hpost.2]

theorem splitNumTok_dec {ds fs post : List Char} {sep : Char}
    (hds : ∀ c ∈ ds, c.isDigit = true) (hsep : sep = '.' ∨ sep = ',')
    (hfs : fs ≠ []) (hfsd : ∀ c ∈ fs, c.isDigit = true)
    (hpost : fracStop post = true) :
    splitNumTok (ds ++ sep :: (fs ++ post)) = (ds ++ sep :: fs, post) := by
  have hsepd : sep.isDigit = false := by rcases hsep with h | h <;> subst h <;> rfl
  obtain ⟨f0, ft, rfl⟩ := List.exists_cons_of_ne_nil hfs
  have hf0 : f0.isDigit = true := hfsd f0 (by simp)
  have hsepeq : (sep == '.' || sep == ',') = true := by
    rcases hsep with h | h <;> subst h <;> rfl
  rw [splitNumTok]
  rw [takeWhile_append_all _ hds, dropWhile_append_all _ hds,
    List.takeWhile_cons_of_neg (by simp [hsepd]), List.dropWhile_cons_of_neg (by simp [hsepd]),
    List.append_nil]
  simp only [List.cons_append, hsepeq, hf0, Bool.and_self, if_true]
  have hft : ∀ c ∈ f0 :: ft, c.isDigit = true := hfsd
  rw [show f0 :: (ft ++ post) = (f0 :: ft) ++ post by simp,
    takeWhile_append_all _ hft, dropWhile_append_all _ hft,
    takeWhile_digit_of_fracStop hpost, dropWhile_digit_of_fracStop hpost,
    List.append_nil]

theorem valorOfL_append {pre : List Char} (l : List Char)
    (h : ∀ c ∈ pre, c.isDigit = false) :
    valorOfL (pre ++ l) = valorOfL l := by
  rw [valorOfL, valorOfL, findNumTok_append l h]

theorem valorOfL_int {ds post : List Char} (hne : ds ≠ [])
    (hds : ∀ c ∈ ds, c.isDigit = true) (hpost : numTokStop post = true) :
    valorOfL (ds ++ post) = (natOfDigits ds : ℚ) := by
  obtain ⟨d0, dt, rfl⟩ := List.exists_cons_of_ne_nil hne
  have hd0 : d0.isDigit = true := hds d0 (by simp)
  rw [valorOfL]
  simp only [List.cons_append, findNumTok, hd0, if_true]
  show ratOfTok (splitNumTok ((d0 :: dt) ++ post)).1 = (natOfDigits (d0 :: dt) : ℚ)
  rw [splitNumTok_int hds hpost]
  exact ratOfTok_int hds

theorem valorOfL_dec {ds fs post : List Char} {sep : Char} (hne : ds ≠ [])
    (hds : ∀ c ∈ ds, c.isDigit = true) (hsep : sep = '.' ∨ sep = ',')
    (hfs : fs ≠ []) (hfsd : ∀ c ∈ fs, c.isDigit = true)
    (hpost : fracStop post = true) :
    valorOfL (ds ++ sep :: (fs ++ post)) =
      (natOfDigits ds : ℚ) + (natOfDigits fs : ℚ) / 10 ^ fs.length := by
  obtain ⟨d0, dt, rfl⟩ := List.exists_cons_of_ne_nil hne
  have hd0 : d0.isDigit = true := hds d0 (by simp)
  have hsepd : sep.isDigit = false := by rcases hsep with h | h <;> subst h <;> rfl
  rw [valorOfL]
  simp only [List.cons_append, findNumTok, hd0, if_true]
  show ratOfTok (splitNumTok ((d0 :: dt) ++ sep :: (fs ++ post))).1 =
    (natOfDigits (d0 :: dt) : ℚ) + (natOfDigits fs : ℚ) / 10 ^ fs.length
  rw [splitNumTok_dec hds hsep hfs hfsd hpost]
  exact ratOfTok_dec hds hsepd hfsd

theorem valorOfL_zero {l : List Char} (h : ∀ c ∈ l, c.isDigit = false) :
    valorOfL l = 0 := by
  rw [valorOfL, findNumTok_none h]

theorem ratOfTok_nonneg (t : List Char) : 0 ≤ ratOfTok t := by
  rw [ratOfTok]
  cases h : t.dropWhile Char.isDigit with
  | nil => positivity
  | cons c fr => positivity

theorem valorOfL_nonneg (l : List Char) : 0 ≤ valorOfL l := by
  rw [valorOfL]
  cases h : findNumTok l with
  | none => exact le_refl 0
  | some tok => exact ratOfTok_nonneg tok

theorem parse_mensagem_fields {m : String} {d : Date} {r : Registro}
    (h : parse_mensagem m d = some r) :
    r.valor = valorOf m ∧ r.categoria = categoriaOf m ∧
      r.formaPagamento = formaPagamentoOf m ∧ r.observacoes = observacoesOf m ∧
      dataOf m d = some r.data := by
  unfold parse_mensagem at h
  cases hd : dataOf m d with
  | none => rw [hd] at h; cases h
  | some dt =>
    rw [hd] at h
    cases h
    exact ⟨rfl, rfl, rfl, rfl, rfl⟩

/-! ## Digit-printing lemmas for the round-trip claim -/

theorem digitChar_isDigit : ∀ n < 10, (Nat.digitChar n).isDigit = true := by decide

theorem digitChar_val : ∀ n < 10, (Nat.digitChar n).toNat - 48 = n := by decide

theorem natToDigits_ne_nil (n : Nat) : natToDigits n ≠ [] := by
  rw [natToDigits]
  by_cases h : n < 10
  · rw [dif_pos h]; simp
  · rw [dif_neg h]; simp

theorem natToDigits_digits (n : Nat) : ∀ c ∈ natToDigits n, c.isDigit = true := by
  induction n using Nat.strong_induction_on with
  | _ n ih =>
    rw [natToDigits]
    by_cases h : n < 10
    · rw [dif_pos h]
      intro c hc
      simp only [List.mem_singleton] at hc
      subst hc
      exact digitChar_isDigit n h
    · rw [dif_neg h]
      intro c hc
      rcases List.mem_append.mp hc with h1 | h2
      · exact ih (n / 10) (Nat.div_lt_self (by omega) (by omega)) c h1
      · simp only [List.mem_singleton] at h2
        subst h2
        exact digitChar_isDigit (n % 10) (Nat.mod_lt _ (by omega))

theorem natToDigits_val :
    ∀ n a : Nat, (natToDigits n).foldl (fun a c => 10 * a + (c.toNat - 48)) a =
      a * tenPow n + n := by
  intro n
  induction n using Nat.strong_induction_on with
  | _ n ih =>
    intro a
    by_cases h : n < 10
    · rw [natToDigits, dif_pos h, tenPow, dif_pos h]
      simp only [List.foldl_cons, List.foldl_nil]
      rw [digitChar_val n h]
      ring
    · rw [natToDigits, dif_neg h, tenPow, dif_neg h, List.foldl_append]
      rw [ih (n / 10) (Nat.div_lt_self (by omega) (by omega)) a]
      simp only [List.foldl_cons, List.foldl_nil]
      rw [digitChar_val (n % 10) (Nat.mod_lt _ (by omega))]
      have hdm : 10 * (n / 10) + n % 10 = n := Nat.div_add_mod n 10
      ring_nf
      omega

theorem natOfDigits_natToDigits (n : Nat) : natOfDigits (natToDigits n) = n := by
  rw [natOfDigits, natToDigits_val n 0]
  simp

/-! ## Claim theorems (first batch) -/

/-- C1: the amount `parse_mensagem` extracts is the numeric value of the
first token of the message matching the numeric-token grammar
`\d+(?:[.,]\d+)?` (digits, optionally a `.` or `,` separator followed by
digits; the separator is normalized to `.` before parsing), and it is 0
when the message contains no digit at all.  The three conjuncts cover a
first token with no fractional part, a first token with a fractional part,
and the digit-free case. -/
theorem c1_valor_primeiro_token :
    (∀ (pre ds post : List Char) (d : Date) (r : Registro),
        (∀ c ∈ pre, c.isDigit = false) →
        ds ≠ [] → (∀ c ∈ ds, c.isDigit = true) →
        numTokStop post = true →
        parse_mensagem (String.mk (pre ++ ds ++ post)) d = some r →
        r.valor = (natOfDigits ds : ℚ)) ∧
    (∀ (pre ds fs post : List Char) (sep : Char) (d : Date) (r : Registro),
        (∀ c ∈ pre, c.isDigit = false) →
        ds ≠ [] → (∀ c ∈ ds, c.isDigit = true) →
        (sep = '.' ∨ sep = ',') →
        fs ≠ [] → (∀ c ∈ fs, c.isDigit = true) →
        fracStop post = true →
        parse_mensagem (String.mk (pre ++ ds ++ sep :: (fs ++ post))) d = some r →
        r.valor = (natOfDigits ds : ℚ) + (natOfDigits fs : ℚ) / 10 ^ fs.length) ∧
    (∀ (m : String) (d : Date) (r : Registro),
        (∀ c ∈ m.data, c.isDigit = false) →
        parse_mensagem m d = some r → r.valor = 0) := by
  refine ⟨?_, ?_, ?_⟩
  · intro pre ds post d r hpre hne hds hpost hp
    rw [(parse_mensagem_fields hp).1]
    show valorOfL (pre ++ ds ++ post) = _
    rw [List.append_assoc, valorOfL_append _ hpre, valorOfL_int hne hds hpost]
  · intro pre ds fs post sep d r hpre hne hds hsep hfs hfsd hpost hp
    rw [(parse_mensagem_fields hp).1]
    show valorOfL (pre ++ ds ++ sep :: (fs ++ post)) = _
    rw [List.append_assoc, valorOfL_append _ hpre, valorOfL_dec hne hds hsep hfs hfsd hpost]
  · intro m d r hm hp
    rw [(parse_mensagem_fields hp).1]
    show valorOfL m.data = 0
    exact valorOfL_zero hm

/-- Witness for C1: on the concrete message `"pay 12 x"` the extracted
amount is the value of the first numeric token `12`. -/
theorem c1_witness :
    (⟨12, "pay", ⟨2024, 1, 1⟩, "", "x"⟩ : Registro).valor =
      (natOfDigits ['1', '2'] : ℚ) := by
  exact c1_valor_primeiro_token.1 ['p', 'a', 'y', ' '] ['1', '2'] [' ', 'x']
    ⟨2024, 1, 1⟩ ⟨12, "pay", ⟨2024, 1, 1⟩, "", "x"⟩
    (by decide) (by decide) (by decide) (by decide) (by decide)

/-- C7: aggregating an empty sequence of stored rows yields an overall total
of 0 and an empty per-category grouping. -/
theorem c7_totais_vazio :
    totalGastos [] = some 0 ∧ categoriasTotais [] = some [] := by
  exact ⟨rfl, rfl⟩

/-- C8: formatting an amount of `cents/100` currency units to two decimal
places (as done when a record is stored) and re-parsing the formatted
string through the amount extractor returns exactly `cents/100`: the
decimal round trip has no drift. -/
theorem c8_roundtrip_moedas (cents : Nat) :
    valorOf (formatValor2 cents) = (cents : ℚ) / 100 := by
  show valorOfL (natToDigits (cents / 100) ++
    '.' :: [Nat.digitChar (cents % 100 / 10), Nat.digitChar (cents % 100 % 10)]) = _
  have h1 : ∀ c ∈ natToDigits (cents / 100), c.isDigit = true := natToDigits_digits _
  have hm : cents % 100 < 100 := Nat.mod_lt _ (by omega)
  have hd1 : cents % 100 / 10 < 10 := by omega
  have hd2 : cents % 100 % 10 < 10 := by omega
  have h2 : ∀ c ∈ [Nat.digitChar (cents % 100 / 10), Nat.digitChar (cents % 100 % 10)],
      c.isDigit = true := by
    intro c hc
    rcases List.mem_cons.mp hc with h | h
    · subst h; exact digitChar_isDigit _ hd1
    · simp only [List.mem_singleton] at h
      subst h
      exact digitChar_isDigit _ hd2
  have hdec := @valorOfL_dec (natToDigits (cents / 100))
    [Nat.digitChar (cents % 100 / 10), Nat.digitChar (cents % 100 % 10)] [] '.'
    (natToDigits_ne_nil (cents / 100)) h1 (Or.inl rfl) (by simp) h2 rfl
  rw [List.append_nil] at hdec
  rw [hdec, natOfDigits_natToDigits]
  have hfrac : natOfDigits [Nat.digitChar (cents % 100 / 10), Nat.digitChar (cents % 100 % 10)] =
      cents % 100 := by
    simp only [natOfDigits, List.foldl_cons, List.foldl_nil]
    rw [digitChar_val _ hd1, digitChar_val _ hd2]
    omega
  rw [hfrac]
  have hlen : ([Nat.digitChar (cents % 100 / 10), Nat.digitChar (cents % 100 % 10)] :
      List Char).length = 2 := rfl
  rw [hlen]
  have key : (cents / 100) * 100 + cents % 100 = cents := by omega
  have keyQ : ((cents / 100 : ℕ) : ℚ) * 100 + ((cents % 100 : ℕ) : ℚ) = (cents : ℚ) := by
    exact_mod_cast congrArg (Nat.cast : Nat → ℚ) key
  have h102 : (10 : ℚ) ^ (2 : ℕ) = 100 := by norm_num
  rw [h102]
  field_simp
  linarith [keyQ]

/-- C9: `parse_mensagem` is not total: a message containing a token of the
shape `DD/MM/YYYY` that is not a valid calendar date makes the date parser
raise (modelled as `none`) instead of returning a record or falling back to
the message timestamp, while the same message with a valid date parses. -/
theorem c9_data_invalida_excecao :
    parse_mensagem "gasto 31/02/2024" ⟨2024, 1, 1⟩ = none ∧
    parse_mensagem "gasto 99/99/2024" ⟨2024, 1, 1⟩ = none ∧
    (parse_mensagem "gasto 31/03/2024" ⟨2024, 1, 1⟩).isSome = true := by
  exact ⟨by decide, by decide, by decide⟩

/-- C10: the numeric-token pattern never captures a minus sign, so every
record `parse_mensagem` returns has a non-negative amount; in particular
`"refund -5"` parses to amount 5. -/
theorem c10_valor_nao_negativo :
    (∀ (m : String) (d : Date) (r : Registro),
        parse_mensagem m d = some r → 0 ≤ r.valor) ∧
    (parse_mensagem "refund -5" ⟨2024, 1, 1⟩).map Registro.valor = some 5 := by
  constructor
  · intro m d r hp
    rw [(parse_mensagem_fields hp).1]
    exact valorOfL_nonneg m.data
  · decide

/-- Witness for C10: the record parsed from `"refund -5"` has a
non-negative amount. -/
theorem c10_witness :
    0 ≤ (⟨5, "refund", ⟨2024, 1, 1⟩, "", "-"⟩ : Registro).valor := by
  exact c10_valor_nao_negativo.1 "refund -5" ⟨2024, 1, 1⟩
    ⟨5, "refund", ⟨2024, 1, 1⟩, "", "-"⟩ (by decide)

/-- Witness for C8: the concrete amount 12.34 round-trips through
formatting and re-parsing. -/
theorem c8_witness : valorOf (formatValor2 1234) = (1234 : ℚ) / 100 := by
  exact c8_roundtrip_moedas 1234

/-! ## Helper lemmas for the payment method loop, the category filter,
the aggregation fold and the whitespace trim -/

theorem firstFP_none {low : List Char} {l : List String}
    (h : ∀ fp ∈ l, isSubstr fp.data low = false) :
    firstFP low l = "" := by
  induction l with
  | nil => rfl
  | cons a rest ih =>
    have ha : isSubstr a.data low = false := h a (by simp)
    simp only [firstFP, ha, Bool.false_eq_true, if_false]
    exact ih fun fp hfp => h fp (by simp [hfp])

theorem firstFP_found {low : List Char} {l : List String} {fp : String}
    (hfp : fp ∈ l) (hocc : isSubstr fp.data low = true) :
    firstFP low l ∈ l ∧ isSubstr (firstFP low l).data low = true ∧
      ∃ l₁ l₂, l = l₁ ++ firstFP low l :: l₂ ∧
        ∀ q ∈ l₁, isSubstr q.data low = false := by
  induction l with
  | nil => cases hfp
  | cons a rest ih =>
    cases ha : isSubstr a.data low with
    | true =>
      have hred : firstFP low (a :: rest) = a := by simp [firstFP, ha]
      exact ⟨by rw [hred]; simp, by rw [hred]; exact ha,
        [], rest, by rw [hred]; rfl, by simp⟩
    | false =>
      have hfp2 : fp ∈ rest := by
        rcases List.mem_cons.mp hfp with h1 | h1
        · subst h1; rw [hocc] at ha; cases ha
        · exact h1
      obtain ⟨hmem, hocc2, l₁, l₂, hdec, hall⟩ := ih hfp2
      have hred : firstFP low (a :: rest) = firstFP low rest := by
        simp [firstFP, ha]
      refine ⟨?_, ?_, a :: l₁, l₂, ?_, ?_⟩
      · rw [hred]; exact List.mem_cons_of_mem a hmem
      · rw [hred]; exact hocc2
      · rw [hred, List.cons_append]; exact congrArg (List.cons a) hdec
      · intro q hq
        rcases List.mem_cons.mp hq with h1 | h1
        · subst h1; exact ha
        · exact hall q h1

theorem filter_first {α : Type} (p : α → Bool) :
    ∀ (l : List α) (w : α) (t : List α), l.filter p = w :: t →
      ∃ l₁ l₂, l = l₁ ++ w :: l₂ ∧ p w = true ∧ ∀ x ∈ l₁, p x = false := by
  intro l
  induction l with
  | nil => intro w t h; cases h
  | cons a rest ih =>
    intro w t h
    cases ha : p a with
    | true =>
      rw [List.filter_cons_of_pos ha] at h
      obtain ⟨h1, h2⟩ := List.cons.inj h
      subst h1
      exact ⟨[], rest, rfl, ha, by simp⟩
    | false =>
      rw [List.filter_cons, ha] at h
      simp only [Bool.false_eq_true, if_false] at h
      obtain ⟨l₁, l₂, hdec, hw, hall⟩ := ih w t h
      refine ⟨a :: l₁, l₂, ?_, hw, ?_⟩
      · rw [List.cons_append]; exact congrArg (List.cons a) hdec
      · intro x hx
        rcases List.mem_cons.mp hx with h1 | h1
        · subst h1; exact ha
        · exact hall x h1

theorem foldPy_none {α : Type} (g : α → Linha → ℚ → α) :
    ∀ (rows : List Linha) (acc : α), (∃ r ∈ rows, pyFloat r.valor = none) →
      rows.foldlM (fun a r => (pyFloat r.valor).map (g a r)) acc = none := by
  intro rows
  induction rows with
  | nil => intro acc h; simp at h
  | cons r rs ih =>
    intro acc h
    cases hr : pyFloat r.valor with
    | none => simp [List.foldlM_cons, hr]
    | some v =>
      obtain ⟨x, hx, hnone⟩ := h
      rcases List.mem_cons.mp hx with h1 | h1
      · subst h1; rw [hr] at hnone; cases hnone
      · simp only [List.foldlM_cons, hr, Option.map_some', Option.some_bind]
        exact ih (g acc r v) ⟨x, h1, hnone⟩

theorem foldPy_some {α : Type} (g : α → Linha → ℚ → α) :
    ∀ (rows : List Linha) (acc : α), (∀ r ∈ rows, (pyFloat r.valor).isSome = true) →
      (rows.foldlM (fun a r => (pyFloat r.valor).map (g a r)) acc).isSome = true := by
  intro rows
  induction rows with
  | nil => intro acc _; rfl
  | cons r rs ih =>
    intro acc h
    cases hr : pyFloat r.valor with
    | none =>
      have := h r (by simp)
      rw [hr] at this
      cases this
    | some v =>
      simp only [List.foldlM_cons, hr, Option.map_some', Option.some_bind]
      exact ih (g acc r v) fun x hx => h x (List.mem_cons_of_mem r hx)

theorem head?_dropWhile_false {p : Char → Bool} :
    ∀ (l : List Char) (c : Char), (l.dropWhile p).head? = some c → p c = false := by
  intro l
  induction l with
  | nil => intro c h; cases h
  | cons a t ih =>
    intro c h
    cases ha : p a with
    | true =>
      rw [List.dropWhile_cons_of_pos ha] at h
      exact ih c h
    | false =>
      rw [List.dropWhile_cons_of_neg (by simp [ha])] at h
      obtain rfl := Option.some.inj h
      exact ha

theorem pyStrip_head {l : List Char} {c : Char}
    (h : (pyStrip l).head? = some c) : isPySpace c = false := by
  rw [pyStrip, List.head?_reverse] at h
  set X := ((l.dropWhile isPySpace).reverse.dropWhile isPySpace) with hX
  have hXne : X ≠ [] := by
    intro h0
    rw [h0] at h
    cases h
  have hsplit : (l.dropWhile isPySpace).reverse =
      (l.dropWhile isPySpace).reverse.takeWhile isPySpace ++ X :=
    (List.takeWhile_append_dropWhile isPySpace _).symm
  have hlast : ((l.dropWhile isPySpace).reverse).getLast? = X.getLast? := by
    conv_lhs => rw [hsplit]
    exact List.getLast?_append_of_ne_nil _ hXne
  rw [← hlast, List.getLast?_reverse] at h
  exact head?_dropWhile_false l c h

theorem pyStrip_last {l : List Char} {c : Char}
    (h : (pyStrip l).getLast? = some c) : isPySpace c = false := by
  rw [pyStrip, List.getLast?_reverse] at h
  exact head?_dropWhile_false _ c h

/-! ## Claim theorems (second batch) -/

/-- C2 (amended): the aggregation does NOT skip rows with an unparseable
stored amount: a single such row makes the whole aggregation raise
(modelled as `none`, caught by the command handler which replies with an
error), while the sums exist whenever every stored amount parses. -/
theorem c2_aggregation_aborta (rows : List Linha) :
    ((∃ r ∈ rows, pyFloat r.valor = none) →
        totalGastos rows = none ∧ categoriasTotais rows = none) ∧
    ((∀ r ∈ rows, (pyFloat r.valor).isSome = true) →
        (totalGastos rows).isSome = true ∧ (categoriasTotais rows).isSome = true) := by
  constructor
  · intro h
    exact ⟨foldPy_none (fun a _ v => a + v) rows 0 h,
      foldPy_none (fun a r v => addCat a r.categoria v) rows [] h⟩
  · intro h
    exact ⟨foldPy_some (fun a _ v => a + v) rows 0 h,
      foldPy_some (fun a r v => addCat a r.categoria v) rows [] h⟩

/-- Counterexample to C2 as stated: on rows `[("10", Food), ("abc", Food)]`
the claim predicts the aggregation skips the malformed row and returns 10
(as the spec-modelled skipping aggregation does), but the code's
aggregation aborts with an error instead. -/
theorem c2_counterexample :
    totalGastos [⟨"10", "Food"⟩, ⟨"abc", "Food"⟩] = none ∧
    categoriasTotais [⟨"10", "Food"⟩, ⟨"abc", "Food"⟩] = none ∧
    totalGastosSpec [⟨"10", "Food"⟩, ⟨"abc", "Food"⟩] = 10 := by
  refine ⟨by decide, by decide, ?_⟩
  have h : totalGastosSpec [⟨"10", "Food"⟩, ⟨"abc", "Food"⟩] = 0 + (10 : ℚ) := rfl
  rw [h, zero_add]

/-- Witness for C2: a concrete malformed row aborts both aggregations. -/
theorem c2_witness :
    totalGastos [⟨"x", "A"⟩] = none ∧ categoriasTotais [⟨"x", "A"⟩] = none := by
  exact (c2_aggregation_aborta [⟨"x", "A"⟩]).1 ⟨⟨"x", "A"⟩, by simp, by decide⟩

/-- C3 (amended): the payment method is the FIRST entry of the fixed
vocabulary (in vocabulary order `cartão, cartao, dinheiro, pix,
transferência, transferencia, boleto`) that occurs as a case-insensitive
substring of the message — not the synonym occurring first in scan order
of the message — and the empty string when no synonym occurs. -/
theorem c3_forma_ordem_vocabulario :
    (∀ m : String, (∀ fp ∈ vocabFP, isSubstr fp.data (pyLowerL m.data) = false) →
        formaPagamentoOf m = "") ∧
    (∀ (m : String) (fp : String), fp ∈ vocabFP →
        isSubstr fp.data (pyLowerL m.data) = true →
        formaPagamentoOf m ∈ vocabFP ∧
        isSubstr (formaPagamentoOf m).data (pyLowerL m.data) = true ∧
        ∃ l₁ l₂, vocabFP = l₁ ++ formaPagamentoOf m :: l₂ ∧
          ∀ q ∈ l₁, isSubstr q.data (pyLowerL m.data) = false) := by
  constructor
  · intro m h
    exact firstFP_none h
  · intro m fp h1 h2
    exact firstFP_found h1 h2

/-- Counterexample to C3 as stated: in `"pix dinheiro"` the synonym `pix`
occurs first in left-to-right scan order, but the code returns
`dinheiro`, the first match in vocabulary order. -/
theorem c3_counterexample :
    scanFirstFP "pix dinheiro" = "pix" ∧
    formaPagamentoOf "pix dinheiro" = "dinheiro" ∧
    ("dinheiro" : String) ≠ "pix" := by
  exact ⟨by decide, by decide, by decide⟩

/-- Witness for C3: on `"pago no pix"` the matched synonym is a vocabulary
entry occurring in the message, with no earlier vocabulary entry
occurring. -/
theorem c3_witness :
    formaPagamentoOf "pago no pix" ∈ vocabFP ∧
    isSubstr (formaPagamentoOf "pago no pix").data
      (pyLowerL ("pago no pix" : String).data) = true ∧
    ∃ l₁ l₂, vocabFP = l₁ ++ formaPagamentoOf "pago no pix" :: l₂ ∧
      ∀ q ∈ l₁, isSubstr q.data (pyLowerL ("pago no pix" : String).data) = false := by
  exact c3_forma_ordem_vocabulario.2 "pago no pix" "pix" (by decide) (by decide)

/-- C4 (amended): the parsed date comes only from the first `DD/MM/YYYY`
token: when the message has such a token the date is its strptime parse
(the whole parse raising on an invalid date), and when it has none —
including when it has only an ISO `YYYY-MM-DD` token, which the code does
not recognize — the date is the fallback timestamp's calendar date. -/
theorem c4_data_somente_ddmmyyyy (m : String) (fb : Date) (r : Registro)
    (h : parse_mensagem m fb = some r) :
    (findDateTok m.data = none ∧ r.data = fb) ∨
    (∃ d mo y, findDateTok m.data = some (d, mo, y) ∧
      strptimeDMY d mo y = some r.data) := by
  have h5 := (parse_mensagem_fields h).2.2.2.2
  rw [dataOf] at h5
  cases hf : findDateTok m.data with
  | none =>
    rw [hf] at h5
    simp only at h5
    exact Or.inl ⟨rfl, (Option.some.inj h5).symm⟩
  | some v =>
    obtain ⟨d, mo, y⟩ := v
    rw [hf] at h5
    simp only at h5
    exact Or.inr ⟨d, mo, y, rfl, h5⟩

/-- Counterexample to C4 as stated: the message
`"Market 50 2024-03-01"` contains an ISO date token, yet the parsed date
is the fallback date 2023-05-05, not 2024-03-01. -/
theorem c4_counterexample :
    parse_mensagem "Market 50 2024-03-01" ⟨2023, 5, 5⟩ =
      some ⟨50, "Market", ⟨2023, 5, 5⟩, "", "--"⟩ ∧
    (⟨2023, 5, 5⟩ : Date) ≠ ⟨2024, 3, 1⟩ := by
  exact ⟨by decide, by decide⟩

/-- Witness for C4: on `"Market 50 01/03/2024"` the `DD/MM/YYYY` token is
found and parsed to 2024-03-01. -/
theorem c4_witness :
    (findDateTok ("Market 50 01/03/2024" : String).data = none ∧
      (⟨50, "Market", ⟨2024, 3, 1⟩, "", "//"⟩ : Registro).data = ⟨2023, 5, 5⟩) ∨
    (∃ d mo y, findDateTok ("Market 50 01/03/2024" : String).data = some (d, mo, y) ∧
      strptimeDMY d mo y =
        some (⟨50, "Market", ⟨2024, 3, 1⟩, "", "//"⟩ : Registro).data) := by
  exact c4_data_somente_ddmmyyyy "Market 50 01/03/2024" ⟨2023, 5, 5⟩
    ⟨50, "Market", ⟨2024, 3, 1⟩, "", "//"⟩ (by decide)

/-- C5 (amended): the category is the first alphabetic word of the message
whose lowercase form is not a SUBSTRING of the matched payment-method
token (Python `in`, not equality — so words that are proper substrings of
the payment-method token are removed as well), and the label `"Geral"`
when every word is such a substring or there are no words. -/
theorem c5_categoria_filtra_substring (m : String) :
    (filteredPalavras m = [] ∧ categoriaOf m = "Geral") ∨
    (∃ w l₁ l₂, palavrasOf m.data = l₁ ++ w :: l₂ ∧
        categoriaOf m = String.mk w ∧
        isSubstr (pyLowerL w) (pyLowerL (formaPagamentoOf m).data) = false ∧
        ∀ p ∈ l₁, isSubstr (pyLowerL p) (pyLowerL (formaPagamentoOf m).data) = true) := by
  cases hf : filteredPalavras m with
  | nil =>
    left
    refine ⟨rfl, ?_⟩
    rw [categoriaOf, hf]
  | cons w t =>
    right
    obtain ⟨l₁, l₂, hdec, hw, hall⟩ := filter_first _ (palavrasOf m.data) w t hf
    refine ⟨w, l₁, l₂, hdec, ?_, ?_, ?_⟩
    · rw [categoriaOf, hf]
    · simpa using hw
    · intro p hp
      have := hall p hp
      simpa using this

/-- Counterexample to C5 as stated: in `"pi pix"` the word `pi` is not
equal to the payment token `pix`, so the claim predicts category `pi`
(as the spec-modelled equality filter computes), but the code removes it
as a substring of `pix` and falls back to `"Geral"`. -/
theorem c5_counterexample :
    categoriaSpec "pi pix" = "pi" ∧
    categoriaOf "pi pix" = "Geral" ∧
    ("Geral" : String) ≠ "pi" := by
  exact ⟨by decide, by decide, by decide⟩

/-- Witness for C5: the amended statement instantiated at the concrete
message `"pi pix"`. -/
theorem c5_witness :
    (filteredPalavras "pi pix" = [] ∧ categoriaOf "pi pix" = "Geral") ∨
    (∃ w l₁ l₂, palavrasOf ("pi pix" : String).data = l₁ ++ w :: l₂ ∧
        categoriaOf "pi pix" = String.mk w ∧
        isSubstr (pyLowerL w) (pyLowerL (formaPagamentoOf "pi pix").data) = false ∧
        ∀ p ∈ l₁,
          isSubstr (pyLowerL p) (pyLowerL (formaPagamentoOf "pi pix").data) = true) := by
  exact c5_categoria_filtra_substring "pi pix"

/-- C6 (amended): the notes are the message with all numeric tokens
removed, then ALL case-insensitive occurrences of the category word
removed, then ALL case-insensitive occurrences of the payment-method word
removed (not merely the first occurrence of each), finally trimmed of
surrounding whitespace — so the trimmed result never starts or ends with
whitespace. -/
theorem c6_observacoes_remocao_global (m : String) (d : Date) (r : Registro)
    (h : parse_mensagem m d = some r) :
    r.observacoes = String.mk (pyStrip
      (removeAllCI (formaPagamentoOf m).data
        (removeAllCI (categoriaOf m).data (stripNums m.data)))) ∧
    (∀ c, r.observacoes.data.head? = some c → isPySpace c = false) ∧
    (∀ c, r.observacoes.data.getLast? = some c → isPySpace c = false) := by
  have hobs := (parse_mensagem_fields h).2.2.2.1
  refine ⟨hobs, ?_, ?_⟩
  · intro c hc
    rw [hobs] at hc
    exact pyStrip_head hc
  · intro c hc
    rw [hobs] at hc
    exact pyStrip_last hc

/-- Counterexample to C6 as stated: in `"uber uber 10"` the claim predicts
that only the first occurrence of the category word `uber` is removed,
leaving notes `"uber"` (as the spec-modelled first-occurrence removal
computes), but the code removes every occurrence and the notes are empty. -/
theorem c6_counterexample :
    observacoesSpec "uber uber 10" = "uber" ∧
    observacoesOf "uber uber 10" = "" ∧
    ("" : String) ≠ "uber" := by
  exact ⟨by decide, by decide, by decide⟩

/-- Witness for C6: the amended statement instantiated on the parse of
`"uber uber 10"`. -/
theorem c6_witness :
    (⟨10, "uber", ⟨2024, 1, 1⟩, "", ""⟩ : Registro).observacoes =
      String.mk (pyStrip
        (removeAllCI (formaPagamentoOf "uber uber 10").data
          (removeAllCI (categoriaOf "uber uber 10").data
            (stripNums ("uber uber 10" : String).data)))) ∧
    (∀ c, (⟨10, "uber", ⟨2024, 1, 1⟩, "", ""⟩ : Registro).observacoes.data.head? = some c →
      isPySpace c = false) ∧
    (∀ c, (⟨10, "uber", ⟨2024, 1, 1⟩, "", ""⟩ : Registro).observacoes.data.getLast? = some c →
      isPySpace c = false) := by
  exact c6_observacoes_remocao_global "uber uber 10" ⟨2024, 1, 1⟩
    ⟨10, "uber", ⟨2024, 1, 1⟩, "", ""⟩ (by decide)

end FinBot
